import Mathlib

/-!
Shallow embedding of `mpris.py`, a command-line MPRIS2 media-player client.

The embedding models the pure decision logic of the script:

* decimal rendering and Python `int()` parsing of selectors,
* list indexing with Python semantics (negative indices wrap from the end),
* the service resolver `_open_service` (numeric index first, then
  last-suffix-match over the directory, recording every `MprisService`
  construction),
* `MprisService.__init__`'s optional-interface capability probes,
* the capability-gated command dispatcher of the `__main__` block (as a
  gateway-event trace),
* the `open` command's fault translation,
* the `status` query's rendering and fault handling, and
* `track_length_string`, i.e. Python's `str(timedelta(microseconds=L))`.

D-Bus faults are modelled as their machine-readable D-Bus error name
(a `String`, what `ex.get_dbus_name()` returns); a fallible gateway call is
an `Except String v`.  Python `int()` is modelled for inputs consisting of
an optional single sign followed by ASCII decimal digits (the script's
selectors; whitespace-padded and underscore-grouped literals are out of
scope of the model).
-/

namespace Mpris

/-! ## Decimal digits: rendering and folding back -/

/-- One ASCII decimal digit character, embedding `"%d"` formatting of a
single digit. -/
def digitChar : Nat → Char
  | 0 => '0'
  | 1 => '1'
  | 2 => '2'
  | 3 => '3'
  | 4 => '4'
  | 5 => '5'
  | 6 => '6'
  | 7 => '7'
  | 8 => '8'
  | 9 => '9'
  | _ => '*'

/-- Test whether `c` is an ASCII decimal digit. -/
def isDigitCh (c : Char) : Bool := 48 ≤ c.toNat && c.toNat ≤ 57

/-- Accumulator-passing decimal rendering (most significant digit first),
structurally recursive on a fuel bound so that it evaluates by kernel
reduction; any fuel `≥ n` gives the full rendering. -/
def toDecimalAux (fuel n : Nat) (acc : List Char) : List Char :=
  match fuel with
  | 0 => digitChar (n % 10) :: acc
  | fuel + 1 =>
    if n < 10 then digitChar (n % 10) :: acc
    else toDecimalAux fuel (n / 10) (digitChar (n % 10) :: acc)

/-- Decimal rendering with accumulator, fuel saturated. -/
def decRun (n : Nat) (acc : List Char) : List Char := toDecimalAux n n acc

/-- Decimal rendering of a natural number, as Python's `str` produces it. -/
def natToDecimal (n : Nat) : List Char := decRun n []

/-- Decimal rendering of an integer (Python `str` of an `int`). -/
def intToDecimal (i : Int) : List Char :=
  if i < 0 then '-' :: natToDecimal i.natAbs else natToDecimal i.toNat

/-- Fold a digit string back into a number (the value of a digit run). -/
def decFold (a : Nat) (l : List Char) : Nat :=
  l.foldl (fun a c => 10 * a + (c.toNat - 48)) a

/-- Two-digit zero-padded rendering, embedding `"%02d"`. -/
def pad2 (n : Nat) : List Char :=
  if n < 10 then '0' :: natToDecimal n else natToDecimal n

/-- Six-digit zero-padded rendering, embedding `"%06d"`. -/
def pad6 (n : Nat) : List Char :=
  List.replicate (6 - (natToDecimal n).length) '0' ++ natToDecimal n

/-! ## Splitting a character list on a separator -/

/-- Split a character list on a separator character (the separator is
dropped; `n` separators yield `n + 1` chunks). -/
def splitOnChar (sep : Char) : List Char → List (List Char)
  | [] => [[]]
  | c :: rest =>
    if c = sep then [] :: splitOnChar sep rest
    else
      match splitOnChar sep rest with
      | [] => [[c]]
      | t :: ts => (c :: t) :: ts

/-! ## Python `int()` parsing of selector strings -/

/-- Value of a non-empty all-digit character run; `none` otherwise. -/
def parseDigits (l : List Char) : Option Nat :=
  if l ≠ [] ∧ l.all isDigitCh then some (decFold 0 l) else none

/-- Embedding of Python `int(s)` on selector strings: an optional single
sign followed by one or more ASCII decimal digits; everything else raises
`ValueError` (modelled as `none`). -/
def pyParseInt (s : String) : Option Int :=
  match s.data with
  | [] => none
  | c :: rest =>
    if c = '-' then (parseDigits rest).map (fun n => -(n : Int))
    else if c = '+' then (parseDigits rest).map (fun n => (n : Int))
    else (parseDigits (c :: rest)).map (fun n => (n : Int))

/-- Rendering `str(i)` of a Python integer. -/
def intToStr (i : Int) : String := String.mk (intToDecimal i)

/-! ## `track_length_string`: Python `str(timedelta(microseconds=length))`

CPython normalizes `timedelta(microseconds=L)` to `(days, seconds,
microseconds)` with `0 ≤ seconds < 86400` and `0 ≤ microseconds < 10^6`
(floor division, so only `days` can be negative), and renders it as
`[D day(s), ]H:MM:SS[.ffffff]` — hours unpadded, minutes/seconds
zero-padded to two digits, the fraction printed (6 digits) only when the
microsecond part is nonzero, the day prefix only when `days` is nonzero. -/

/-- The `"%d:%02d:%02d"` time-of-day part of `str(timedelta)`. -/
def timeChars (hh mm ss : Nat) : List Char :=
  natToDecimal hh ++ ':' :: (pad2 mm ++ ':' :: pad2 ss)

/-- Time-of-day part plus the `".%06d"` fraction appended when the
microsecond part is nonzero. -/
def timeFracChars (hh mm ss us : Nat) : List Char :=
  if us = 0 then timeChars hh mm ss else timeChars hh mm ss ++ '.' :: pad6 us

/-- The `H:MM:SS[.ffffff]` part of `str(timedelta(microseconds=L))`, from
the normalized seconds-of-day (`L / 10^6 % 86400`) and microsecond
(`L % 10^6`) fields.  `%` and `/` on `Int` are Euclidean, which coincides
with Python's floor division and modulo for the positive divisors used
here. -/
def timedeltaTimeFrac (L : Int) : List Char :=
  timeFracChars ((L / 1000000 % 86400).toNat / 3600)
    ((L / 1000000 % 86400).toNat / 60 % 60)
    ((L / 1000000 % 86400).toNat % 60) ((L % 1000000).toNat)

/-- Full rendering of `timedelta(microseconds=L)` as a character list: the
`D day(s), ` prefix (only when the normalized day field is nonzero, plural
unless it is `1` or `-1`) followed by the time-of-day part. -/
def timedeltaChars (L : Int) : List Char :=
  if L / 1000000 / 86400 = 0 then timedeltaTimeFrac L
  else
    intToDecimal (L / 1000000 / 86400) ++
      ((if (L / 1000000 / 86400).natAbs = 1 then " day, ".data
        else " days, ".data) ++ timedeltaTimeFrac L)

/-- Embedding of `track_length_string(length)`:
`str(timedelta(microseconds=length))`. -/
def track_length_string (length : Int) : String :=
  String.mk (timedeltaChars length)

/-! ### A parser for the rendered duration format -/

/-- Parse the `H:MM:SS[.ffffff]` part back into microseconds, given an
already-parsed day count. -/
def parseTimeChars (days : Nat) (t : List Char) : Option Nat :=
  match splitOnChar ':' t with
  | [h, m, s] =>
    match splitOnChar '.' s with
    | [sec] =>
      some ((days * 86400 + decFold 0 h * 3600 + decFold 0 m * 60
        + decFold 0 sec) * 1000000)
    | [sec, frac] =>
      some ((days * 86400 + decFold 0 h * 3600 + decFold 0 m * 60
        + decFold 0 sec) * 1000000 + decFold 0 frac)
    | _ => none
  | _ => none

/-- Parse a full non-negative rendered duration back into microseconds. -/
def parseDurationChars (l : List Char) : Option Nat :=
  match splitOnChar ' ' l with
  | [t] => parseTimeChars 0 t
  | [d, _w, t] => parseTimeChars (decFold 0 d) t
  | _ => none

/-- Parse a duration string produced by `track_length_string`. -/
def parseDuration (s : String) : Option Nat := parseDurationChars s.data

/-! ## The service resolver: `_open_service`

`_open_service(services, select)` first tries `int(select)`; on success it
constructs `MprisService(services[no])`, printing a not-found message on
`IndexError`.  On `ValueError` it scans the directory in order,
constructing a fresh handle for every entry whose name ends with `select`
(later matches overwrite earlier ones), and prints a not-found message if
no entry matched.  The embedding returns the resolution outcome together
with the list of endpoint names for which a handle was constructed, in
construction order. -/

/-- Python `s.endswith(select)`: literal suffix test on the characters. -/
def pyEndsWith (s select : String) : Bool := select.data.isSuffixOf s.data

/-- Python list indexing: non-negative indices in `[0, len)`, negative
indices in `[-len, -1]` counted from the end; anything else raises
`IndexError` (modelled as `none`). -/
def pyIndex (l : List String) (i : Int) : Option String :=
  if 0 ≤ i then l.get? i.toNat
  else if i.natAbs ≤ l.length then l.get? (l.length - i.natAbs)
  else none

/-- Outcome of `_open_service`: a constructed handle for a named endpoint,
or one of the two printed not-found failures. -/
inductive ResolveResult where
  | found (name : String)
  | notFoundIndex (no : Int)
  | notFoundName (select : String)
deriving DecidableEq

/-- Characters printed by the `IndexError` branch:
`f'MPRIS2 service no. {no} not found.'` — note it interpolates the parsed
integer `no`, not the selector text. -/
def msgIndexChars (no : Int) : List Char :=
  "MPRIS2 service no. ".data ++ intToDecimal no ++ " not found.".data

/-- Characters printed by the no-suffix-match branch:
`f'MPRIS2 service "{args.service}" not found.'`.  The code interpolates
the global `args.service`; at every call site that can reach this branch
it equals the `select` argument, which the model uses. -/
def msgNameChars (select : String) : List Char :=
  "MPRIS2 service \"".data ++ select.data ++ "\" not found.".data

/-- The message printed for a failed resolution, if any. -/
def resolveMessage : ResolveResult → Option (List Char)
  | .found _ => none
  | .notFoundIndex no => some (msgIndexChars no)
  | .notFoundName select => some (msgNameChars select)

/-- The name-matching loop
`for s in services: if s.endswith(select): service = MprisService(s)`:
a fold that overwrites the candidate on every suffix match, recording
each handle construction. -/
def scanMatches (select : String) (services : List String) :
    Option String × List String :=
  services.foldl
    (fun acc s => if pyEndsWith s select then (some s, acc.2 ++ [s]) else acc)
    (none, [])

/-- Embedding of `_open_service(services, select)`. -/
def openService (services : List String) (select : String) :
    ResolveResult × List String :=
  match pyParseInt select with
  | some no =>
    match pyIndex services no with
    | some name => (.found name, [name])
    | none => (.notFoundIndex no, [])
  | none =>
    match scanMatches select services with
    | (some name, constructed) => (.found name, constructed)
    | (none, constructed) => (.notFoundName select, constructed)

/-! ## `MprisService.__init__`: optional-interface capability probing

The constructor binds the endpoint and then probes the two optional
interfaces by reading one cheap property each (`PlaylistCount` for
playlists, `CanEditTracks` for the track list).  Each probe sits in a
`try/except dbus.exceptions.DBusException` block whose handler sets the
corresponding interface handle to `None`.  A probe outcome is an
`Except` over the D-Bus error name. -/

/-- A constructed `MprisService`: endpoint name plus whether the optional
`playlists` / `tracklist` interface handles survived their probe
(`None` in the code becomes `false`). -/
structure MprisServiceModel where
  name : String
  playlists : Bool
  tracklist : Bool
deriving DecidableEq

/-- D-Bus error name of the standard not-supported fault. -/
def notSupportedName : String := "org.freedesktop.DBus.Error.NotSupported"

/-- Embedding of `MprisService.__init__` given the two probe outcomes.
The result is an `Except` so that "a fault propagates out of
construction" is expressible; the `except DBusException` handlers catch
every D-Bus fault kind, so construction always returns `ok`. -/
def initMprisService (servicename : String)
    (playlistProbe tracklistProbe : Except String Unit) :
    Except String MprisServiceModel :=
  .ok { name := servicename,
        playlists := match playlistProbe with | .ok _ => true | .error _ => false,
        tracklist := match tracklistProbe with | .ok _ => true | .error _ => false }

/-! ## The command dispatcher of `__main__`

Control commands are dispatched through an `elif` chain: first the guard
`elif not service.get_player_property('CanControl')` (print + `exit(1)`),
then per-command branches that read the command's capability flag (print
"not supported" + `exit(2)` when false) and otherwise invoke the player
method.  `stop` has no per-command flag.  The embedding returns the
outcome together with the ordered trace of gateway interactions. -/

/-- One observable gateway interaction of the dispatcher. -/
inductive GatewayEvent where
  | getProperty (name : String)
  | call (method : String)
deriving DecidableEq

/-- The five capability flags read via `get_player_property`. -/
structure PlayerCaps where
  canControl : Bool
  canPlay : Bool
  canPause : Bool
  canGoNext : Bool
  canGoPrevious : Bool
deriving DecidableEq

/-- Embedding of `service.get_player_property(name)` restricted to the capability
flags the dispatcher reads. -/
def readCap (caps : PlayerCaps) (name : String) : Bool :=
  if name = "CanControl" then caps.canControl
  else if name = "CanPlay" then caps.canPlay
  else if name = "CanPause" then caps.canPause
  else if name = "CanGoNext" then caps.canGoNext
  else caps.canGoPrevious

/-- The gated control commands (`status`, `open` and `services` are
handled separately). -/
inductive Command where
  | toggle
  | stop
  | play
  | pause
  | next
  | prev
deriving DecidableEq

/-- The capability flag guarding each command; `stop` has none
("for some reason, there's no 'CanStop' property"). -/
def commandCap : Command → Option String
  | .toggle => some "CanPause"
  | .stop => none
  | .play => some "CanPlay"
  | .pause => some "CanPause"
  | .next => some "CanGoNext"
  | .prev => some "CanGoPrevious"

/-- The player-interface method each command invokes. -/
def commandMethod : Command → String
  | .toggle => "PlayPause"
  | .stop => "Stop"
  | .play => "Play"
  | .pause => "Pause"
  | .next => "Next"
  | .prev => "Previous"

/-- Dispatch outcome: method invoked, `exit(1)` after the control-denied
message, or `exit(2)` after "not supported". -/
inductive DispatchOutcome where
  | invoked
  | controlDenied
  | cmdUnsupported
deriving DecidableEq

/-- Embedding of the control-command dispatch, with the ordered trace of
gateway interactions. -/
def dispatch (caps : PlayerCaps) (cmd : Command) :
    DispatchOutcome × List GatewayEvent :=
  if !readCap caps "CanControl" then
    (.controlDenied, [.getProperty "CanControl"])
  else
    match commandCap cmd with
    | none =>
      (.invoked, [.getProperty "CanControl", .call (commandMethod cmd)])
    | some capName =>
      if readCap caps capName then
        (.invoked, [.getProperty "CanControl", .getProperty capName,
          .call (commandMethod cmd)])
      else
        (.cmdUnsupported, [.getProperty "CanControl", .getProperty capName])

/-! ## The `open` command's fault handling -/

/-- Outcome of the `open` command: URI opened; "Service ... does not
support opening URIs via MPRIS2." then `exit(1)`; or
"Unexpected error: {ex}" then `exit(1)` with the fault shown verbatim. -/
inductive OpenOutcome where
  | opened
  | unsupportedUri (serviceName : String)
  | unexpectedError (faultName : String)
deriving DecidableEq

/-- Embedding of the `try: service.player.OpenUri(...)` block:
`callResult` is the gateway call outcome carrying the D-Bus error name,
and the handler distinguishes faults whose name ends with
`'UnknownMethod'`. -/
def openCommand (serviceName : String) (callResult : Except String Unit) :
    OpenOutcome :=
  match callResult with
  | .ok _ => .opened
  | .error ex =>
    if pyEndsWith ex "UnknownMethod" then .unsupportedUri serviceName
    else .unexpectedError ex

/-! ## The `status` query -/

/-- The metadata keys the status branch reads (`mpris:length`,
`xesam:title`, `xesam:url`, `xesam:artist`); each may be absent. -/
structure Metadata where
  length : Option Int
  title : Option String
  url : Option String
  artist : Option (List String)
deriving DecidableEq

/-- Python truthiness of an optional string: `None` and `''` are falsy. -/
def pyTruthyStr : Option String → Bool
  | some s => !s.data.isEmpty
  | none => false

/-- Embedding of `meta.get('xesam:title') or meta.get('xesam:url')`: Python `or`
yields the first operand when truthy, else the second. -/
def displayTitle (m : Metadata) : Option String :=
  if pyTruthyStr m.title then m.title else m.url

/-- f-string interpolation of an optional string: `None` prints as
`"None"`. -/
def pyShowOptStr : Option String → String
  | some s => s
  | none => "None"

/-- The `{title}` field of the status line. -/
def titleStr (m : Metadata) : String := pyShowOptStr (displayTitle m)

/-- The `{artist}` field: `'[Unknown]'` unless the artist list is truthy
(non-empty), else the deque loop
`artist = artist + ', ' + artists.popleft()`. -/
def artistStr (m : Metadata) : String :=
  match m.artist with
  | some (a :: rest) => rest.foldl (fun acc x => acc ++ ", " ++ x) a
  | some [] => "[Unknown]"
  | none => "[Unknown]"

/-- Embedding of `track_length_string(pos) if pos else '???'`: Python truthiness on
the optional position (`None` and `0` are falsy). -/
def posStr (pos : Option Int) : String :=
  match pos with
  | some p => if p = 0 then "???" else track_length_string p
  | none => "???"

/-- The `len_str` value: empty unless `mpris:length` is truthy (present and
nonzero); otherwise `({pos_str}/{track_length_string(length)})`. -/
def lenStr (m : Metadata) (pos : Option Int) : String :=
  match m.length with
  | some l =>
    if l = 0 then ""
    else "(" ++ posStr pos ++ "/" ++ track_length_string l ++ ")"
  | none => ""

/-- The rendered playing/paused line:
`f'{status}: "{title}" by {artist} {len_str}'`. -/
def statusLine (status : String) (m : Metadata) (pos : Option Int) : String :=
  status ++ ": \"" ++ titleStr m ++ "\" by " ++ artistStr m ++ " "
    ++ lenStr m pos

/-- What the status branch prints: the full line for Playing/Paused, the
raw status string otherwise. -/
inductive StatusOutput where
  | line (s : String)
  | raw (status : String)
deriving DecidableEq

/-- Embedding of the `status` branch: read `PlaybackStatus`; for
Playing/Paused read `Metadata` then attempt `Position`, where a
`NotSupported` fault becomes `pos = None` and any other fault re-raises;
all other reads propagate their faults. -/
def statusCommand (statusRead : Except String String)
    (metaRead : Except String Metadata) (posRead : Except String Int) :
    Except String StatusOutput :=
  match statusRead with
  | .error e => .error e
  | .ok status =>
    if status = "Playing" ∨ status = "Paused" then
      match metaRead with
      | .error e => .error e
      | .ok meta =>
        match posRead with
        | .ok p => .ok (.line (statusLine status meta (some p)))
        | .error e =>
          if e = notSupportedName then .ok (.line (statusLine status meta none))
          else .error e
    else .ok (.raw status)

/-- Join with `", "` as the spec words it ("join all artist strings with
`', '`"). -/
def joinCommaSpec : List String → String
  | [] => ""
  | [a] => a
  | a :: rest => a ++ ", " ++ joinCommaSpec rest

/-- The spec scenario's metadata:
`{title: "Song", artist: ["X", "Y"], length: 125000000}`. -/
def scenarioMeta : Metadata :=
  { length := some 125000000,
    title := some "Song",
    url := none,
    artist := some ["X", "Y"] }

/-- Metadata with both `length` and `title` keys present but falsy
(`length = 0`, `title = ""`), and a URL. -/
def zeroLengthMeta : Metadata :=
  { length := some 0,
    title := some "",
    url := some "http://u",
    artist := none }

/-- Metadata with every key absent. -/
def emptyMeta : Metadata :=
  { length := none,
    title := none,
    url := none,
    artist := none }

/-! ## Lemmas and claim theorems -/

theorem toDecimalAux_fuel {f1 f2 n : Nat} (h1 : n ≤ f1) (h2 : n ≤ f2)
    (acc : List Char) : toDecimalAux f1 n acc = toDecimalAux f2 n acc := by
  induction n using Nat.strong_induction_on generalizing f1 f2 acc with
  | _ n ih =>
    match f1, f2 with
    | 0, 0 => rfl
    | 0, f2 + 1 =>
      have : n = 0 := by omega
      subst this
      simp [toDecimalAux]
    | f1 + 1, 0 =>
      have : n = 0 := by omega
      subst this
      simp [toDecimalAux]
    | f1 + 1, f2 + 1 =>
      show toDecimalAux (f1 + 1) n acc = toDecimalAux (f2 + 1) n acc
      unfold toDecimalAux
      by_cases h : n < 10
      · simp [h]
      · simp only [h, if_false]
        exact ih (n / 10) (Nat.div_lt_self (by omega) (by omega))
          (by omega) (by omega) _

theorem toDecimalAux_succ (fuel n : Nat) (acc : List Char) :
    toDecimalAux (fuel + 1) n acc =
      if n < 10 then digitChar (n % 10) :: acc
      else toDecimalAux fuel (n / 10) (digitChar (n % 10) :: acc) := rfl

theorem decRun_eq (n : Nat) (acc : List Char) :
    decRun n acc =
      if n < 10 then digitChar (n % 10) :: acc
      else decRun (n / 10) (digitChar (n % 10) :: acc) := by
  match n with
  | 0 => rfl
  | m + 1 =>
    show toDecimalAux (m + 1) (m + 1) acc = _
    rw [toDecimalAux_succ]
    by_cases h : m + 1 < 10
    · simp [h]
    · simp only [h, if_false]
      exact @toDecimalAux_fuel m ((m + 1) / 10) ((m + 1) / 10)
        (by omega) (by omega) _

theorem digitChar_toNat {n : Nat} (h : n < 10) : (digitChar n).toNat = 48 + n := by
  interval_cases n <;> rfl

theorem isDigitCh_digitChar {n : Nat} (h : n < 10) : isDigitCh (digitChar n) = true := by
  interval_cases n <;> rfl

theorem decRun_append (n : Nat) (acc : List Char) :
    decRun n acc = decRun n [] ++ acc := by
  induction n using Nat.strong_induction_on generalizing acc with
  | _ n ih =>
    rw [decRun_eq n acc, decRun_eq n []]
    by_cases h : n < 10
    · simp [h]
    · simp only [h, if_false]
      have hlt : n / 10 < n := Nat.div_lt_self (by omega) (by omega)
      rw [ih _ hlt (digitChar (n % 10) :: acc), ih _ hlt [digitChar (n % 10)]]
      simp

theorem natToDecimal_ne_nil (n : Nat) : natToDecimal n ≠ [] := by
  unfold natToDecimal
  rw [decRun_eq]
  by_cases h : n < 10
  · simp [h]
  · simp only [h, if_false]
    rw [decRun_append]
    simp

theorem mem_natToDecimal_isDigit {n : Nat} {c : Char}
    (hc : c ∈ natToDecimal n) : isDigitCh c = true := by
  induction n using Nat.strong_induction_on with
  | _ n ih =>
    unfold natToDecimal at hc
    rw [decRun_eq] at hc
    by_cases h : n < 10
    · simp only [h, if_true, List.mem_singleton] at hc
      subst hc; exact isDigitCh_digitChar (Nat.mod_lt _ (by omega))
    · simp only [h, if_false] at hc
      rw [decRun_append] at hc
      rcases List.mem_append.mp hc with h1 | h1
      · exact ih (n / 10) (Nat.div_lt_self (by omega) (by omega)) h1
      · simp only [List.mem_singleton] at h1
        subst h1; exact isDigitCh_digitChar (Nat.mod_lt _ (by omega))

theorem decFold_append (a : Nat) (l1 l2 : List Char) :
    decFold a (l1 ++ l2) = decFold (decFold a l1) l2 := by
  simp [decFold, List.foldl_append]

theorem decFold_single (a : Nat) (c : Char) :
    decFold a [c] = 10 * a + (c.toNat - 48) := by
  simp [decFold]

/-- Folding the decimal rendering of `n` on top of accumulator `a` yields
`a` shifted past the digits of `n`, plus `n`. -/
theorem decFold_natToDecimal (n : Nat) :
    ∀ a, decFold a (natToDecimal n) = a * 10 ^ (natToDecimal n).length + n := by
  induction n using Nat.strong_induction_on with
  | _ n ih =>
    intro a
    conv_lhs => rw [natToDecimal, decRun_eq]
    conv_rhs => rw [natToDecimal, decRun_eq]
    by_cases h : n < 10
    · simp only [h, if_true]
      rw [decFold_single, digitChar_toNat (Nat.mod_lt n (by omega) : n % 10 < 10)]
      simp only [List.length_cons, List.length_nil]
      omega
    · simp only [h, if_false]
      rw [decRun_append, decFold_append]
      have hlt : n / 10 < n := Nat.div_lt_self (by omega) (by omega)
      rw [show decRun (n / 10) [] = natToDecimal (n / 10) from rfl, ih _ hlt a]
      rw [decFold_single, digitChar_toNat (Nat.mod_lt n (by omega) : n % 10 < 10)]
      rw [List.length_append, List.length_cons, List.length_nil]
      have key : ∀ X : Nat,
          10 * (a * X + n / 10) + (48 + n % 10 - 48) = a * X * 10 + n := by
        intro X
        have h2 : 10 * (n / 10) + n % 10 = n := Nat.div_add_mod n 10
        have h3 : 48 + n % 10 - 48 = n % 10 := by omega
        rw [h3]
        calc 10 * (a * X + n / 10) + n % 10
            = a * X * 10 + (10 * (n / 10) + n % 10) := by ring
          _ = a * X * 10 + n := by rw [h2]
      rw [key (10 ^ (natToDecimal (n / 10)).length), pow_succ]
      ring

theorem decFold_natToDecimal_zero (n : Nat) : decFold 0 (natToDecimal n) = n := by
  rw [decFold_natToDecimal]; simp

theorem decFold_replicate_zero (a : Nat) (k : Nat) :
    decFold a (List.replicate k '0') = a * 10 ^ k := by
  induction k generalizing a with
  | zero => simp [decFold]
  | succ k ih =>
    rw [List.replicate_succ]
    show decFold a ('0' :: List.replicate k '0') = _
    rw [show ('0' :: List.replicate k '0') = ['0'] ++ List.replicate k '0' from rfl,
      decFold_append, decFold_single, ih]
    have : ('0' : Char).toNat - 48 = 0 := by decide
    rw [this, pow_succ]
    ring

theorem decFold_pad2_zero (n : Nat) : decFold 0 (pad2 n) = n := by
  unfold pad2
  by_cases h : n < 10
  · simp only [h, if_true]
    rw [show ('0' :: natToDecimal n) = ['0'] ++ natToDecimal n from rfl,
      decFold_append, decFold_single]
    have : ('0' : Char).toNat - 48 = 0 := by decide
    rw [this]
    simp [decFold_natToDecimal_zero]
  · simp only [h, if_false]
    exact decFold_natToDecimal_zero n

theorem decFold_pad6_zero (n : Nat) : decFold 0 (pad6 n) = n := by
  unfold pad6
  rw [decFold_append, decFold_replicate_zero]
  simp [decFold_natToDecimal_zero]

theorem mem_pad2_isDigit {n : Nat} {c : Char} (hc : c ∈ pad2 n) :
    isDigitCh c = true := by
  unfold pad2 at hc
  by_cases h : n < 10
  · simp only [h, if_true, List.mem_cons] at hc
    rcases hc with h1 | h1
    · subst h1; rfl
    · exact mem_natToDecimal_isDigit h1
  · simp only [h, if_false] at hc
    exact mem_natToDecimal_isDigit hc

theorem mem_pad6_isDigit {n : Nat} {c : Char} (hc : c ∈ pad6 n) :
    isDigitCh c = true := by
  unfold pad6 at hc
  rcases List.mem_append.mp hc with h1 | h1
  · rw [List.eq_of_mem_replicate h1]; rfl
  · exact mem_natToDecimal_isDigit h1

theorem splitOnChar_cons (sep c : Char) (rest : List Char) :
    splitOnChar sep (c :: rest) =
      if c = sep then [] :: splitOnChar sep rest
      else
        match splitOnChar sep rest with
        | [] => [[c]]
        | t :: ts => (c :: t) :: ts := rfl

theorem splitOnChar_ne_nil (sep : Char) (l : List Char) :
    splitOnChar sep l ≠ [] := by
  induction l with
  | nil => simp [splitOnChar]
  | cons c rest ih =>
    unfold splitOnChar
    by_cases h : c = sep
    · simp [h]
    · simp only [h, if_false]
      cases hs : splitOnChar sep rest with
      | nil => simp
      | cons t ts => simp

theorem splitOnChar_of_not_mem {sep : Char} {l : List Char} (h : sep ∉ l) :
    splitOnChar sep l = [l] := by
  induction l with
  | nil => rfl
  | cons c rest ih =>
    simp only [List.mem_cons, not_or] at h
    unfold splitOnChar
    have hc : ¬(c = sep) := fun hh => h.1 hh.symm
    simp only [hc, if_false]
    rw [ih h.2]

theorem splitOnChar_append {sep : Char} {a : List Char} (b : List Char)
    (h : sep ∉ a) : splitOnChar sep (a ++ sep :: b) = a :: splitOnChar sep b := by
  induction a with
  | nil => simp [splitOnChar]
  | cons c rest ih =>
    simp only [List.mem_cons, not_or] at h
    have hc : ¬(c = sep) := fun hh => h.1 hh.symm
    rw [List.cons_append, splitOnChar_cons]
    simp only [hc, if_false]
    rw [ih h.2]

theorem parseDigits_natToDecimal (n : Nat) :
    parseDigits (natToDecimal n) = some n := by
  unfold parseDigits
  rw [if_pos, decFold_natToDecimal_zero]
  exact ⟨natToDecimal_ne_nil n, List.all_eq_true.mpr fun c hc => mem_natToDecimal_isDigit hc⟩

theorem natToDecimal_head_digit (n : Nat) :
    ∃ c rest, natToDecimal n = c :: rest ∧ isDigitCh c = true := by
  cases h : natToDecimal n with
  | nil => exact absurd h (natToDecimal_ne_nil n)
  | cons c rest =>
    exact ⟨c, rest, rfl, mem_natToDecimal_isDigit (h ▸ List.mem_cons_self c rest)⟩

theorem intToDecimal_natCast (n : Nat) : intToDecimal (n : Int) = natToDecimal n := by
  unfold intToDecimal
  rw [if_neg (by omega), show ((n : Int)).toNat = n by omega]

/-- Round trip: Python `int(str(i)) = i` for every integer `i`. -/
theorem pyParseInt_intToStr (i : Int) : pyParseInt (intToStr i) = some i := by
  unfold pyParseInt intToStr intToDecimal
  by_cases h : i < 0
  · simp only [h, if_true]
    rw [parseDigits_natToDecimal]
    show some (-(i.natAbs : Int)) = some i
    have hv : -((i.natAbs : Int)) = i := by omega
    rw [hv]
  · simp only [h, if_false]
    obtain ⟨c, rest, hcr, hdig⟩ := natToDecimal_head_digit i.toNat
    have hc1 : c ≠ '-' := by
      intro hh; subst hh; exact absurd hdig (by decide)
    have hc2 : c ≠ '+' := by
      intro hh; subst hh; exact absurd hdig (by decide)
    rw [hcr]
    simp only [if_neg hc1, if_neg hc2]
    rw [← hcr, parseDigits_natToDecimal]
    show some ((i.toNat : Int)) = some i
    have hv : ((i.toNat : Int)) = i := by omega
    rw [hv]

/-! ### Character-class facts for the rendered pieces -/

theorem not_digit_not_mem_natToDecimal (c : Char) (hc : ¬isDigitCh c = true)
    (n : Nat) : c ∉ natToDecimal n :=
  fun h => hc (mem_natToDecimal_isDigit h)

theorem not_digit_not_mem_pad2 (c : Char) (hc : ¬isDigitCh c = true)
    (n : Nat) : c ∉ pad2 n :=
  fun h => hc (mem_pad2_isDigit h)

theorem not_digit_not_mem_pad6 (c : Char) (hc : ¬isDigitCh c = true)
    (n : Nat) : c ∉ pad6 n :=
  fun h => hc (mem_pad6_isDigit h)

theorem mem_timeChars {c : Char} {hh mm ss : Nat} (h : c ∈ timeChars hh mm ss) :
    isDigitCh c = true ∨ c = ':' := by
  unfold timeChars at h
  rcases List.mem_append.mp h with h1 | h1
  · exact Or.inl (mem_natToDecimal_isDigit h1)
  · rcases List.mem_cons.mp h1 with h2 | h2
    · exact Or.inr h2
    · rcases List.mem_append.mp h2 with h3 | h3
      · exact Or.inl (mem_pad2_isDigit h3)
      · rcases List.mem_cons.mp h3 with h4 | h4
        · exact Or.inr h4
        · exact Or.inl (mem_pad2_isDigit h4)

theorem mem_timeFracChars {c : Char} {hh mm ss us : Nat}
    (h : c ∈ timeFracChars hh mm ss us) :
    isDigitCh c = true ∨ c = ':' ∨ c = '.' := by
  unfold timeFracChars at h
  by_cases hus : us = 0
  · rw [if_pos hus] at h
    rcases mem_timeChars h with h1 | h1
    · exact Or.inl h1
    · exact Or.inr (Or.inl h1)
  · rw [if_neg hus] at h
    rcases List.mem_append.mp h with h1 | h1
    · rcases mem_timeChars h1 with h2 | h2
      · exact Or.inl h2
      · exact Or.inr (Or.inl h2)
    · rcases List.mem_cons.mp h1 with h2 | h2
      · exact Or.inr (Or.inr h2)
      · exact Or.inl (mem_pad6_isDigit h2)

theorem space_not_mem_timeFracChars (hh mm ss us : Nat) :
    ' ' ∉ timeFracChars hh mm ss us := by
  intro h
  rcases mem_timeFracChars h with h1 | h1 | h1 <;> exact absurd h1 (by decide)

/-! ### Round trip: parsing recovers the microsecond count exactly -/

theorem parseTimeChars_timeFracChars (days hh mm ss us : Nat) :
    parseTimeChars days (timeFracChars hh mm ss us) =
      some ((days * 86400 + hh * 3600 + mm * 60 + ss) * 1000000 + us) := by
  unfold parseTimeChars
  by_cases hus : us = 0
  · rw [show timeFracChars hh mm ss us = timeChars hh mm ss from by
      unfold timeFracChars; rw [if_pos hus]]
    rw [show timeChars hh mm ss
        = natToDecimal hh ++ ':' :: (pad2 mm ++ ':' :: pad2 ss) from rfl]
    rw [splitOnChar_append _ (not_digit_not_mem_natToDecimal ':' (by decide) hh),
      splitOnChar_append _ (not_digit_not_mem_pad2 ':' (by decide) mm),
      splitOnChar_of_not_mem (not_digit_not_mem_pad2 ':' (by decide) ss)]
    dsimp only
    rw [splitOnChar_of_not_mem (not_digit_not_mem_pad2 '.' (by decide) ss)]
    dsimp only
    rw [decFold_natToDecimal_zero, decFold_pad2_zero, decFold_pad2_zero]
    exact congrArg some (by omega)
  · rw [show timeFracChars hh mm ss us
        = natToDecimal hh ++ ':' :: (pad2 mm ++ ':' :: (pad2 ss ++ '.' :: pad6 us)) from by
      unfold timeFracChars timeChars; rw [if_neg hus]; simp]
    have hcolon : ':' ∉ pad2 ss ++ '.' :: pad6 us := by
      intro h
      rcases List.mem_append.mp h with h1 | h1
      · exact not_digit_not_mem_pad2 ':' (by decide) ss h1
      · rcases List.mem_cons.mp h1 with h2 | h2
        · exact absurd h2 (by decide)
        · exact not_digit_not_mem_pad6 ':' (by decide) us h2
    rw [splitOnChar_append _ (not_digit_not_mem_natToDecimal ':' (by decide) hh),
      splitOnChar_append _ (not_digit_not_mem_pad2 ':' (by decide) mm),
      splitOnChar_of_not_mem hcolon]
    dsimp only
    rw [splitOnChar_append _ (not_digit_not_mem_pad2 '.' (by decide) ss),
      splitOnChar_of_not_mem (not_digit_not_mem_pad6 '.' (by decide) us)]
    dsimp only
    rw [decFold_natToDecimal_zero, decFold_pad2_zero, decFold_pad2_zero,
      decFold_pad6_zero]

/-- Parsing the rendered duration of any non-negative microsecond count `L`
recovers `L` exactly. -/
theorem timedeltaTimeFrac_natCast (L : Nat) :
    timedeltaTimeFrac (L : Int)
      = timeFracChars (L / 1000000 % 86400 / 3600) (L / 1000000 % 86400 / 60 % 60)
          (L / 1000000 % 86400 % 60) (L % 1000000) := by
  unfold timedeltaTimeFrac
  rw [show (((L : Int) / 1000000 % 86400)).toNat = L / 1000000 % 86400 by omega,
    show (((L : Int)) % 1000000).toNat = L % 1000000 by omega]

theorem parseDurationChars_timedeltaChars (L : Nat) :
    parseDurationChars (timedeltaChars (L : Int)) = some L := by
  have harith : (L / 1000000 / 86400 * 86400 + L / 1000000 % 86400 / 3600 * 3600
      + L / 1000000 % 86400 / 60 % 60 * 60 + L / 1000000 % 86400 % 60) * 1000000
      + L % 1000000 = L := by omega
  unfold timedeltaChars
  rw [timedeltaTimeFrac_natCast]
  by_cases hd0 : L / 1000000 / 86400 = 0
  · rw [if_pos (by omega : ((L : Int)) / 1000000 / 86400 = 0)]
    unfold parseDurationChars
    rw [splitOnChar_of_not_mem (space_not_mem_timeFracChars _ _ _ _)]
    dsimp only
    rw [parseTimeChars_timeFracChars]
    exact congrArg some (by omega)
  · rw [if_neg (by omega : ¬((L : Int)) / 1000000 / 86400 = 0)]
    rw [show ((L : Int)) / 1000000 / 86400 = ((L / 1000000 / 86400 : Nat) : Int) by omega]
    rw [intToDecimal_natCast,
      show ((L / 1000000 / 86400 : Nat) : Int).natAbs = L / 1000000 / 86400 by omega]
    have hday : ∀ w tf : List Char, ' ' ∉ w →
        (∀ x ∈ tf, x ≠ ' ') →
        parseDurationChars (natToDecimal (L / 1000000 / 86400)
            ++ (' ' :: (w ++ ' ' :: tf))) =
          parseTimeChars (L / 1000000 / 86400) tf := by
      intro w tf hw htf
      unfold parseDurationChars
      rw [splitOnChar_append _
          (not_digit_not_mem_natToDecimal ' ' (by decide) (L / 1000000 / 86400)),
        splitOnChar_append _ hw,
        splitOnChar_of_not_mem (fun h => htf ' ' h rfl)]
      dsimp only
      rw [decFold_natToDecimal_zero]
    have htfspace : ∀ x ∈ timeFracChars (L / 1000000 % 86400 / 3600)
        (L / 1000000 % 86400 / 60 % 60) (L / 1000000 % 86400 % 60) (L % 1000000),
        x ≠ ' ' := by
      intro x hx hx'
      subst hx'
      exact space_not_mem_timeFracChars _ _ _ _ hx
    by_cases hd1 : L / 1000000 / 86400 = 1
    · rw [if_pos hd1]
      rw [show ∀ tf : List Char, natToDecimal (L / 1000000 / 86400)
            ++ (" day, ".data ++ tf)
          = natToDecimal (L / 1000000 / 86400)
            ++ (' ' :: (['d', 'a', 'y', ','] ++ ' ' :: tf)) from fun tf => by
        rw [show (" day, ").data = [' ', 'd', 'a', 'y', ',', ' '] from rfl]
        simp]
      rw [hday ['d', 'a', 'y', ','] _ (by decide) htfspace,
        parseTimeChars_timeFracChars]
      exact congrArg some (by omega)
    · rw [if_neg hd1]
      rw [show ∀ tf : List Char, natToDecimal (L / 1000000 / 86400)
            ++ (" days, ".data ++ tf)
          = natToDecimal (L / 1000000 / 86400)
            ++ (' ' :: (['d', 'a', 'y', 's', ','] ++ ' ' :: tf)) from fun tf => by
        rw [show (" days, ").data = [' ', 'd', 'a', 'y', 's', ',', ' '] from rfl]
        simp]
      rw [hday ['d', 'a', 'y', 's', ','] _ (by decide) htfspace,
        parseTimeChars_timeFracChars]
      exact congrArg some (by omega)

theorem getLast?_cons_or {α : Type} (s : α) (l : List α) :
    (s :: l).getLast? = l.getLast?.or (some s) := by
  induction l generalizing s with
  | nil => rfl
  | cons c l' ih =>
    rw [List.getLast?_cons_cons, ih c]
    cases hl : l'.getLast? with
    | none => rfl
    | some x => rfl

/-- The scan loop keeps the last match and records every match, in order. -/
theorem scanLoop_spec (select : String) (services : List String) :
    ∀ init : Option String × List String,
      services.foldl
        (fun acc s => if pyEndsWith s select then (some s, acc.2 ++ [s]) else acc)
        init
      = (((services.filter (fun s => pyEndsWith s select)).getLast?).or init.1,
         init.2 ++ services.filter (fun s => pyEndsWith s select)) := by
  induction services with
  | nil => intro init; simp
  | cons s rest ih =>
    intro init
    rw [List.foldl_cons, List.filter_cons]
    by_cases h : pyEndsWith s select
    · simp only [h, if_true, ih]
      rw [getLast?_cons_or]
      cases hl : (rest.filter (fun s => pyEndsWith s select)).getLast? with
      | none => simp
      | some x => simp
    · simp only [h, Bool.false_eq_true, if_false, ih]

theorem scanMatches_spec (select : String) (services : List String) :
    scanMatches select services
      = ((services.filter (fun s => pyEndsWith s select)).getLast?,
         services.filter (fun s => pyEndsWith s select)) := by
  unfold scanMatches
  rw [scanLoop_spec]
  simp

/-! ## Helper lemmas about the resolver -/

theorem pyIndex_nonneg {l : List String} {i : Int} (h0 : 0 ≤ i)
    (hl : i < (l.length : Int)) :
    pyIndex l i = some (l.get ⟨i.toNat, by omega⟩) := by
  unfold pyIndex
  rw [if_pos h0, List.get?_eq_get (by omega : i.toNat < l.length)]

theorem pyIndex_out_of_range {l : List String} {i : Int}
    (h : (l.length : Int) ≤ i ∨ i < -(l.length : Int)) :
    pyIndex l i = none := by
  unfold pyIndex
  rcases h with h | h
  · rw [if_pos (by omega), List.get?_eq_none.mpr (by omega)]
  · rw [if_neg (by omega), if_neg (by omega)]

theorem pyIndex_neg {l : List String} {i : Int} (hneg : i < 0)
    (hge : -(l.length : Int) ≤ i) :
    pyIndex l i = some (l.get ⟨l.length - i.natAbs, by omega⟩) := by
  unfold pyIndex
  rw [if_neg (by omega), if_pos (by omega),
    List.get?_eq_get (by omega : l.length - i.natAbs < l.length)]

theorem openService_int (services : List String) (i : Int) :
    openService services (intToStr i)
      = match pyIndex services i with
        | some name => (.found name, [name])
        | none => (.notFoundIndex i, []) := by
  unfold openService
  rw [pyParseInt_intToStr]

theorem openService_name {services : List String} {sel : String}
    (hsel : pyParseInt sel = none) :
    openService services sel
      = match (services.filter (fun s => pyEndsWith s sel)).getLast? with
        | some name =>
          (.found name, services.filter (fun s => pyEndsWith s sel))
        | none =>
          (.notFoundName sel, services.filter (fun s => pyEndsWith s sel)) := by
  unfold openService
  rw [hsel, scanMatches_spec]
  cases (services.filter (fun s => pyEndsWith s sel)).getLast? <;> rfl

/-! ## Claim theorems -/

/-- C1 (counterexample).  The claim states that for every integer `i`
outside `[0, len(directory))`, resolving `str(i)` fails with
`SelectorNotFound`.  Python's negative indexing refutes this: on the
directory `["A", "B"]`, the selector `str(-1) = "-1"` is outside the range
but resolves to a handle for `"B"` (the last entry). -/
theorem resolve_numeric_selector_counterexample :
    intToStr (-1) = "-1"
    ∧ openService ["A", "B"] "-1" = (.found "B", ["B"]) := by decide

/-- C1 (amended).  For a directory and integer `i`: `str(i)` resolves
to the handle for `directory[i]` when `0 ≤ i < len`, fails with
`SelectorNotFound` (the index-error branch, reporting the parsed number)
when `i ≥ len` or `i < -len`, and resolves to `directory[len + i]` when
`-len ≤ i < 0` (Python negative indexing).  Once the selector parses as an
integer it never falls through to suffix name matching: the name-branch
failure is impossible and at most the one indexed handle is constructed. -/
theorem resolve_numeric_selector (dir : List String) (i : Int) :
    (0 ≤ i → i < (dir.length : Int) →
      ∃ name, dir.get? i.toNat = some name
        ∧ openService dir (intToStr i) = (.found name, [name]))
    ∧ ((dir.length : Int) ≤ i ∨ i < -(dir.length : Int) →
      openService dir (intToStr i) = (.notFoundIndex i, []))
    ∧ (i < 0 → -(dir.length : Int) ≤ i →
      ∃ name, dir.get? (dir.length - i.natAbs) = some name
        ∧ openService dir (intToStr i) = (.found name, [name]))
    ∧ (∀ s, (openService dir (intToStr i)).1 ≠ .notFoundName s)
    ∧ (openService dir (intToStr i)).2.length ≤ 1 := by
  refine ⟨?_, ?_, ?_, ?_, ?_⟩
  · intro h0 hl
    rw [openService_int, pyIndex_nonneg h0 hl]
    exact ⟨_, List.get?_eq_get (by omega), rfl⟩
  · intro h
    rw [openService_int, pyIndex_out_of_range h]
  · intro hneg hge
    rw [openService_int, pyIndex_neg hneg hge]
    exact ⟨_, List.get?_eq_get (by omega), rfl⟩
  · intro s
    rw [openService_int]
    cases pyIndex dir i <;> simp
  · rw [openService_int]
    cases pyIndex dir i <;> simp

/-- C1 (witness): on `["A", "B"]`, selector `"0"` resolves to the
handle for `"A"` and selector `"3"` fails with the index-error branch. -/
theorem resolve_numeric_selector_witness :
    (∃ name, (["A", "B"] : List String).get? (0 : Int).toNat = some name
      ∧ openService ["A", "B"] (intToStr 0) = (.found name, [name]))
    ∧ openService ["A", "B"] (intToStr 3) = (.notFoundIndex 3, []) :=
  ⟨(resolve_numeric_selector ["A", "B"] 0).1 (by decide) (by decide),
   (resolve_numeric_selector ["A", "B"] 3).2.1 (Or.inl (by decide))⟩

/-- C2 (confirmed).  For a selector that does not parse as an integer,
resolution returns the handle for the last directory entry whose name ends
with the selector as a literal suffix (the scan overwrites earlier
matches), and fails with `SelectorNotFound` when no entry matches. -/
theorem resolve_suffix_selector (dir : List String) (sel : String)
    (hsel : pyParseInt sel = none) :
    (∀ name, (dir.filter (fun s => pyEndsWith s sel)).getLast? = some name →
      openService dir sel = (.found name, dir.filter (fun s => pyEndsWith s sel))
      ∧ sel.data <:+ name.data ∧ name ∈ dir)
    ∧ (dir.filter (fun s => pyEndsWith s sel) = [] →
      openService dir sel = (.notFoundName sel, [])) := by
  constructor
  · intro name hlast
    rw [openService_name hsel, hlast]
    have hmem := List.mem_filter.mp (List.mem_of_getLast?_eq_some hlast)
    exact ⟨rfl, List.isSuffixOf_iff_suffix.mp hmem.2, hmem.1⟩
  · intro hempty
    rw [openService_name hsel, hempty]
    rfl

/-- C2 (witness): the spec's scenario — on
`["org.mpris.MediaPlayer2.A", "org.mpris.MediaPlayer2.B"]`, the selector
`"B"` resolves to the handle for `org.mpris.MediaPlayer2.B`, a genuine
suffix match. -/
theorem resolve_suffix_selector_witness :
    openService ["org.mpris.MediaPlayer2.A", "org.mpris.MediaPlayer2.B"] "B"
      = (.found "org.mpris.MediaPlayer2.B", ["org.mpris.MediaPlayer2.B"])
    ∧ "B".data <:+ "org.mpris.MediaPlayer2.B".data := by
  have h := (resolve_suffix_selector
    ["org.mpris.MediaPlayer2.A", "org.mpris.MediaPlayer2.B"] "B"
    (by decide)).1 "org.mpris.MediaPlayer2.B" (by decide)
  exact ⟨h.1, h.2.1⟩

/-- C6 (counterexample).  The claim states every `SelectorNotFound`
failure surfaces the original selector text.  The index-error branch
interpolates the *parsed* integer instead: the selector `"007"` on the
one-element directory `["A"]` fails with the message
`MPRIS2 service no. 7 not found.`, which does not contain `"007"`. -/
theorem selector_in_message_counterexample :
    openService ["A"] "007" = (.notFoundIndex 7, [])
    ∧ resolveMessage (ResolveResult.notFoundIndex 7) = some (msgIndexChars 7)
    ∧ ¬("007".data <:+: msgIndexChars 7) := by decide

/-- C6 (amended).  Resolution failures surface a diagnostic: the
suffix-match branch surfaces the original selector text verbatim, while
the integer branch surfaces the decimal rendering of the parsed integer —
which equals the original selector text whenever the selector is the
canonical rendering `str(i)` (as in the numeric contract C1). -/
theorem selector_in_message (dir : List String) (sel : String) :
    (∀ i, (openService dir sel).1 = .notFoundIndex i →
      resolveMessage (openService dir sel).1 = some (msgIndexChars i)
      ∧ intToDecimal i <:+: msgIndexChars i
      ∧ (sel = intToStr i → sel.data <:+: msgIndexChars i))
    ∧ ((openService dir sel).1 = .notFoundName sel →
      resolveMessage (openService dir sel).1 = some (msgNameChars sel)
      ∧ sel.data <:+: msgNameChars sel) := by
  constructor
  · intro i h
    rw [h]
    refine ⟨rfl, ⟨"MPRIS2 service no. ".data, " not found.".data, rfl⟩, ?_⟩
    intro hsel
    subst hsel
    exact ⟨"MPRIS2 service no. ".data, " not found.".data, rfl⟩
  · intro h
    rw [h]
    exact ⟨rfl, ⟨"MPRIS2 service \"".data, "\" not found.".data, rfl⟩⟩

/-- C6 (witness): the failed suffix match of `"X"` against `["A"]`
prints a message containing the selector text `"X"`. -/
theorem selector_in_message_witness :
    resolveMessage (openService ["A"] "X").1 = some (msgNameChars "X")
    ∧ "X".data <:+: msgNameChars "X" :=
  (selector_in_message ["A"] "X").2 (by decide)

/-- C10 (confirmed).  For a non-integer selector, an `MprisService`
handle is constructed for *every* directory entry whose name ends with the
selector, in directory order — not only for the last match that is
returned; earlier matches are constructed and then overwritten. -/
theorem suffix_scan_constructs_all (dir : List String) (sel : String)
    (hsel : pyParseInt sel = none) :
    (openService dir sel).2 = dir.filter (fun s => pyEndsWith s sel)
    ∧ ∀ s ∈ dir, pyEndsWith s sel = true → s ∈ (openService dir sel).2 := by
  have h2 : (openService dir sel).2 = dir.filter (fun s => pyEndsWith s sel) := by
    rw [openService_name hsel]
    cases (dir.filter (fun s => pyEndsWith s sel)).getLast? <;> rfl
  exact ⟨h2, fun s hs hp => h2 ▸ List.mem_filter.mpr ⟨hs, hp⟩⟩

/-- C10 (witness): with directory `["a.X", "b.X"]` and selector `"X"`,
both entries match and both handles are constructed, though only the
handle for `"b.X"` is returned. -/
theorem suffix_scan_constructs_all_witness :
    (openService ["a.X", "b.X"] "X").2 = ["a.X", "b.X"]
    ∧ "a.X" ∈ (openService ["a.X", "b.X"] "X").2 := by
  have h := suffix_scan_constructs_all ["a.X", "b.X"] "X" (by decide)
  exact ⟨h.1.trans (by decide), h.2 "a.X" (by decide) (by decide)⟩

/-- C3 (counterexample).  The claim states that only an
interface/property-not-supported fault is absorbed by the capability probe
and that any other fault kind propagates out of construction.  The
`except dbus.exceptions.DBusException` handlers catch *every* D-Bus fault
kind: probing with a `NoReply` fault (not a not-supported fault) still
returns a constructed service with the capability recorded absent. -/
theorem capability_probe_counterexample :
    initMprisService "svc" (.error "org.freedesktop.DBus.Error.NoReply") (.ok ())
      = .ok { name := "svc", playlists := false, tracklist := true }
    ∧ "org.freedesktop.DBus.Error.NoReply" ≠ notSupportedName :=
  ⟨rfl, by decide⟩

/-- C3 (amended).  Construction always succeeds: each optional
capability is recorded present exactly when its probe read succeeded, and
*any* D-Bus fault from a probe — not only not-supported — is swallowed and
demotes the capability to absent; no D-Bus fault propagates out of
construction. -/
theorem capability_probe_demotes_on_any_fault (name : String)
    (p t : Except String Unit) :
    ∃ m, initMprisService name p t = .ok m
      ∧ m.name = name
      ∧ (m.playlists = true ↔ p = .ok ())
      ∧ (m.tracklist = true ↔ t = .ok ()) := by
  refine ⟨_, rfl, rfl, ?_, ?_⟩
  · cases p with
    | ok u => cases u; simp [initMprisService]
    | error e => simp [initMprisService]
  · cases t with
    | ok u => cases u; simp [initMprisService]
    | error e => simp [initMprisService]

/-- C4 (confirmed).  For the `open` command: a fault whose D-Bus error
name ends in `UnknownMethod` (in particular the standard
`org.freedesktop.DBus.Error.UnknownMethod`) is translated to the
distinguished unsupported outcome, and any fault of any other kind is
surfaced as the unexpected-error outcome carrying the fault name
unmodified. -/
theorem open_unknown_method_translated (serviceName : String) :
    openCommand serviceName (.error "org.freedesktop.DBus.Error.UnknownMethod")
      = .unsupportedUri serviceName
    ∧ (∀ f : String, ¬("UnknownMethod".data <:+ f.data) →
      openCommand serviceName (.error f) = .unexpectedError f)
    ∧ (∀ f : String,
      openCommand serviceName (.error f) ≠ .opened) := by
  refine ⟨rfl, ?_, ?_⟩
  · intro f hf
    have hb : pyEndsWith f "UnknownMethod" = false := by
      cases hx : pyEndsWith f "UnknownMethod" with
      | false => rfl
      | true => exact absurd (List.isSuffixOf_iff_suffix.mp hx) hf
    unfold openCommand
    simp [hb]
  · intro f
    unfold openCommand
    cases hx : pyEndsWith f "UnknownMethod" <;> simp [hx]

/-- C4 (witness): the standard unknown-method fault maps to the
unsupported outcome while a `Failed` fault is surfaced unmodified. -/
theorem open_unknown_method_translated_witness :
    openCommand "svc" (.error "org.freedesktop.DBus.Error.UnknownMethod")
      = .unsupportedUri "svc"
    ∧ openCommand "svc" (.error "org.freedesktop.DBus.Error.Failed")
      = .unexpectedError "org.freedesktop.DBus.Error.Failed" :=
  ⟨(open_unknown_method_translated "svc").1,
   (open_unknown_method_translated "svc").2.1
     "org.freedesktop.DBus.Error.Failed" (by decide)⟩

/-- C5 (confirmed).  For every gated control command: when
`CanControl` is false the dispatch stops with the control-denied outcome
after reading only `CanControl` — no per-command capability flag is read
and no player method is invoked; and whenever any other property is read,
`CanControl` was true and the trace started with the `CanControl` read. -/
theorem control_gate_first (caps : PlayerCaps) (cmd : Command) :
    (caps.canControl = false →
      dispatch caps cmd = (.controlDenied, [.getProperty "CanControl"])
      ∧ (∀ n, n ≠ "CanControl" →
        GatewayEvent.getProperty n ∉ (dispatch caps cmd).2)
      ∧ (∀ meth, GatewayEvent.call meth ∉ (dispatch caps cmd).2))
    ∧ (∀ n, n ≠ "CanControl" →
      GatewayEvent.getProperty n ∈ (dispatch caps cmd).2 →
      caps.canControl = true
      ∧ (dispatch caps cmd).2.head? = some (.getProperty "CanControl")) := by
  constructor
  · intro hcc
    have hd : dispatch caps cmd = (.controlDenied, [.getProperty "CanControl"]) := by
      unfold dispatch readCap
      simp [hcc]
    refine ⟨hd, ?_, ?_⟩
    · intro n hn
      rw [hd]
      simp [hn]
    · intro meth
      rw [hd]
      simp
  · intro n hn hmem
    cases hcc : caps.canControl with
    | false =>
      have hd : dispatch caps cmd = (.controlDenied, [.getProperty "CanControl"]) := by
        unfold dispatch readCap
        simp [hcc]
      rw [hd] at hmem
      simp at hmem
      exact absurd hmem hn
    | true =>
      refine ⟨rfl, ?_⟩
      have hrc : readCap caps "CanControl" = caps.canControl := rfl
      cases hcap : commandCap cmd with
      | none => simp [dispatch, hrc, hcc, hcap]
      | some capName =>
        cases hr : readCap caps capName <;>
          simp [dispatch, hrc, hcc, hcap, hr]

/-- C5 (witness): with `CanControl = false` (and every per-command
flag true), `toggle` stops at the control-denied outcome having read only
`CanControl`; and on a fully-capable player the `CanPause` read of
`toggle` happens only after the leading `CanControl` read. -/
theorem control_gate_first_witness :
    (dispatch ⟨false, true, true, true, true⟩ .toggle
      = (.controlDenied, [.getProperty "CanControl"])
      ∧ GatewayEvent.getProperty "CanPause"
          ∉ (dispatch ⟨false, true, true, true, true⟩ .toggle).2
      ∧ GatewayEvent.call "PlayPause"
          ∉ (dispatch ⟨false, true, true, true, true⟩ .toggle).2)
    ∧ (dispatch ⟨true, true, true, true, true⟩ .toggle).2.head?
        = some (.getProperty "CanControl") := by
  have h1 := (control_gate_first ⟨false, true, true, true, true⟩ .toggle).1 rfl
  have h2 := (control_gate_first ⟨true, true, true, true, true⟩ .toggle).2
    "CanPause" (by decide) (by decide)
  exact ⟨⟨h1.1, h1.2.1 "CanPause" (by decide), h1.2.2 "PlayPause"⟩, h2.2⟩

theorem foldl_joinComma (a : String) (rest : List String) :
    rest.foldl (fun acc x => acc ++ ", " ++ x) a = joinCommaSpec (a :: rest) := by
  induction rest generalizing a with
  | nil => rfl
  | cons x rs ih =>
    rw [List.foldl_cons, ih (a ++ ", " ++ x)]
    cases rs with
    | nil => rfl
    | cons y ys =>
      rw [show joinCommaSpec ((a ++ ", " ++ x) :: y :: ys)
          = (a ++ ", " ++ x) ++ ", " ++ joinCommaSpec (y :: ys) from rfl,
        show joinCommaSpec (a :: x :: y :: ys)
          = a ++ ", " ++ joinCommaSpec (x :: y :: ys) from rfl,
        show joinCommaSpec (x :: y :: ys)
          = x ++ ", " ++ joinCommaSpec (y :: ys) from rfl]
      simp [String.append_assoc]

/-- C7 (counterexample).  The claim ties the position/length pair to
*presence* of the length key and the title to *presence* of the title key;
the code uses Python truthiness instead.  With metadata
`{length: 0, title: "", url: "http://u"}` both keys are present, yet no
pair is rendered (length `0` is falsy) and the URL is shown instead of the
empty title. -/
theorem status_render_counterexample :
    zeroLengthMeta.length.isSome = true
    ∧ lenStr zeroLengthMeta (some 60000000) = ""
    ∧ zeroLengthMeta.title = some ""
    ∧ titleStr zeroLengthMeta = "http://u" := by decide

/-- C7 (amended).  In the status line: the position/length pair is
rendered iff the length metadata is present *and nonzero* (Python
truthiness), in which case it is `({pos}/{length})` with both rendered by
the duration formatter (position falls back to `'???'` when unknown or
zero); the title is the metadata title when present *and non-empty*, else
the URL field; the artist is all artist strings joined with `", "` when
the artist list is present and non-empty, else the literal `'[Unknown]'`
marker.  In the spec's scenario (`title "Song"`, `artists ["X", "Y"]`,
`length 125000000`, `position 60000000`) the rendered line is
`Playing: "Song" by X, Y (0:01:00/0:02:05)` — a 1-minute position and a
2-minutes-5-seconds length. -/
theorem status_render_fields (m : Metadata) (pos : Option Int) :
    (∀ l : Int, m.length = some l → l ≠ 0 →
      lenStr m pos = "(" ++ posStr pos ++ "/" ++ track_length_string l ++ ")")
    ∧ (m.length = none ∨ m.length = some 0 → lenStr m pos = "")
    ∧ (∀ t : String, m.title = some t → t ≠ "" → titleStr m = t)
    ∧ (m.title = none ∨ m.title = some "" → titleStr m = pyShowOptStr m.url)
    ∧ (∀ a rest, m.artist = some (a :: rest) →
      artistStr m = joinCommaSpec (a :: rest))
    ∧ (m.artist = none ∨ m.artist = some [] → artistStr m = "[Unknown]")
    ∧ statusLine "Playing" scenarioMeta (some 60000000)
      = "Playing: \"Song\" by X, Y (0:01:00/0:02:05)" := by
  refine ⟨?_, ?_, ?_, ?_, ?_, ?_, ?_⟩
  · intro l hl hl0
    unfold lenStr
    rw [hl]
    simp [hl0]
  · intro h
    rcases h with h | h <;> simp [lenStr, h]
  · intro t ht htne
    have hdata : t.data ≠ [] := by
      intro hd
      apply htne
      cases t with
      | mk l =>
        simp only at hd
        rw [hd]
    have htruthy : pyTruthyStr (some t) = true := by
      show (!t.data.isEmpty) = true
      cases hl : t.data with
      | nil => exact absurd hl hdata
      | cons c cs => rfl
    unfold titleStr displayTitle
    rw [ht, htruthy]
    rfl
  · intro h
    have hfalsy : pyTruthyStr m.title = false := by
      rcases h with h | h <;> rw [h] <;> rfl
    unfold titleStr displayTitle
    rw [hfalsy]
    rfl
  · intro a rest h
    unfold artistStr
    rw [h]
    exact foldl_joinComma a rest
  · intro h
    rcases h with h | h <;> (unfold artistStr; rw [h])
  · decide

/-- C7 (witness): the amended field rules applied to the scenario
metadata. -/
theorem status_render_fields_witness :
    lenStr scenarioMeta (some 60000000)
      = "(" ++ posStr (some 60000000) ++ "/"
          ++ track_length_string 125000000 ++ ")"
    ∧ titleStr scenarioMeta = "Song"
    ∧ artistStr scenarioMeta = joinCommaSpec ["X", "Y"] := by
  have h := status_render_fields scenarioMeta (some 60000000)
  exact ⟨h.1 125000000 rfl (by decide), h.2.2.1 "Song" rfl (by decide),
    h.2.2.2.2.1 "X" ["Y"] rfl⟩

/-- C8 (confirmed).  In the status query, a `NotSupported` fault on
the `Position` read is absorbed into the unknown-position rendering (no
error), any other fault on the position read propagates, faults on the
`PlaybackStatus` and `Metadata` reads always propagate, and a position
fault can only be absorbed when it is `NotSupported` (or when the status
is not Playing/Paused, in which case the position is never read). -/
theorem status_position_fault_policy :
    (∀ status meta, (status = "Playing" ∨ status = "Paused") →
      statusCommand (.ok status) (.ok meta) (.error notSupportedName)
        = .ok (.line (statusLine status meta none)))
    ∧ (∀ status meta e, (status = "Playing" ∨ status = "Paused") →
      e ≠ notSupportedName →
      statusCommand (.ok status) (.ok meta) (.error e) = .error e)
    ∧ (∀ e mR pR, statusCommand (.error e) mR pR = .error e)
    ∧ (∀ (status e : String), (status = "Playing" ∨ status = "Paused") →
      ∀ pR, statusCommand (.ok status) (.error e) pR = .error e)
    ∧ (∀ status meta e r,
      statusCommand (.ok status) (.ok meta) (.error e) = .ok r →
      r = .raw status ∨ e = notSupportedName) := by
  have hraw : ∀ (status : String) mR pR,
      ¬(status = "Playing" ∨ status = "Paused") →
      statusCommand (.ok status) mR pR = .ok (.raw status) := by
    intro status mR pR hpp
    unfold statusCommand
    dsimp only
    rw [if_neg hpp]
  have herr : ∀ (status : String) meta e,
      (status = "Playing" ∨ status = "Paused") → e ≠ notSupportedName →
      statusCommand (.ok status) (.ok meta) (.error e) = .error e := by
    intro status meta e hpp he
    unfold statusCommand
    dsimp only
    rw [if_pos hpp]
    rw [if_neg he]
  refine ⟨?_, herr, ?_, ?_, ?_⟩
  · intro status meta hpp
    unfold statusCommand
    dsimp only
    rw [if_pos hpp]
    rw [if_pos rfl]
  · intro e mR pR
    rfl
  · intro status e hpp pR
    unfold statusCommand
    dsimp only
    rw [if_pos hpp]
  · intro status meta e r h
    by_cases hpp : status = "Playing" ∨ status = "Paused"
    · by_cases he : e = notSupportedName
      · exact Or.inr he
      · rw [herr status meta e hpp he] at h
        exact absurd h (by simp)
    · rw [hraw status (.ok meta) (.error e) hpp] at h
      injection h with h1
      exact Or.inl h1.symm

/-- C8 (witness): with Playing status, a `NotSupported` position
fault renders the unknown-position line while a `Failed` position fault
propagates; a fault on the metadata read propagates. -/
theorem status_position_fault_policy_witness :
    statusCommand (.ok "Playing") (.ok emptyMeta) (.error notSupportedName)
      = .ok (.line (statusLine "Playing" emptyMeta none))
    ∧ statusCommand (.ok "Playing") (.ok emptyMeta)
        (.error "org.freedesktop.DBus.Error.Failed")
      = .error "org.freedesktop.DBus.Error.Failed"
    ∧ statusCommand (.ok "Playing") (.error "org.freedesktop.DBus.Error.Failed")
        (.ok 0)
      = .error "org.freedesktop.DBus.Error.Failed" := by
  refine ⟨status_position_fault_policy.1 "Playing" emptyMeta (Or.inl rfl),
    status_position_fault_policy.2.1 "Playing" emptyMeta
      "org.freedesktop.DBus.Error.Failed" (Or.inl rfl) (by decide),
    status_position_fault_policy.2.2.2.1 "Playing"
      "org.freedesktop.DBus.Error.Failed" (Or.inl rfl) (.ok 0)⟩

/-- C9 (confirmed).  For every non-negative microsecond count `L`,
parsing the rendered duration `track_length_string(L)` recovers `L`
*exactly* — in particular within one microsecond — and the rendering is
injective on non-negative integers. -/
theorem track_length_roundtrip (L : Nat) :
    parseDuration (track_length_string (L : Int)) = some L
    ∧ (∀ M : Nat,
      track_length_string (L : Int) = track_length_string (M : Int) →
      L = M) := by
  constructor
  · exact parseDurationChars_timedeltaChars L
  · intro M h
    have h1 := parseDurationChars_timedeltaChars L
    have h2 := parseDurationChars_timedeltaChars M
    have hdata : timedeltaChars (L : Int) = timedeltaChars (M : Int) := by
      have := congrArg String.data h
      exact this
    rw [hdata] at h1
    rw [h1] at h2
    injection h2

/-- C9 (witness): the 1-minute rendering parses back exactly, and
trivial injectivity at equal inputs. -/
theorem track_length_roundtrip_witness :
    parseDuration (track_length_string ((60000000 : Nat) : Int))
      = some 60000000
    ∧ (60000000 : Nat) = 60000000 :=
  ⟨(track_length_roundtrip 60000000).1,
   (track_length_roundtrip 60000000).2 60000000 rfl⟩

end Mpris
